import Mathlib

/-!
Shallow embedding of the Me-Nexus core (src-tauri/src/database.rs,
src-tauri/src/sync_service.rs, src-tauri/src/models.rs, src-tauri/src/error.rs).

The SQLite database is modelled as explicit lists of rows, one list per table,
together with the AUTOINCREMENT counters of the two tables that have
`INTEGER PRIMARY KEY AUTOINCREMENT` columns.  Each mutating operation returns
the new database state together with an `Except` result, mirroring the Rust
functions that mutate the connection and return `Result<_, NexusError>`; the
state returned on an error path is the state the connection actually holds at
the early `return` (each single SQL statement is atomic in SQLite, so a failed
INSERT leaves the database unchanged).

JSON text is modelled at the level of the serde_json interface: a value of
`JsonText` is either text that parses to a `Json` value or malformed text.
`serde_json::to_string` of a `serde_json::Value` is total and canonical, so a
stored `content_json` column is modelled directly as the `Json` value it
serializes; typed access (`T: Serialize`/`DeserializeOwned`) is modelled by an
explicit encode function (`Todo.toJson`) and decode function (`Todo.fromJson`)
that follow serde's derive semantics for the `Todo` struct (Option fields are
optional and accept null; unknown fields are ignored; required fields error
when missing or ill-typed).

Timestamps (`Utc::now().to_rfc3339()` stored as TEXT) are modelled as natural
numbers threaded explicitly into every operation, since rfc3339 text ordering
agrees with chronological ordering.
-/

namespace MeNexus

/-- JSON values, as in `serde_json::Value` (numbers restricted to integers,
which covers every value occurring in this development). -/
inductive Json where
  | null
  | bool (b : Bool)
  | num (n : Int)
  | str (s : String)
  | arr (xs : List Json)
  | obj (fields : List (String × Json))

/-- JSON source text, at the granularity the code observes it through
`serde_json::from_str::<serde_json::Value>`: either text that parses to a
value, or malformed text. -/
inductive JsonText where
  | valid (v : Json)
  | malformed (raw : String)

/-- Models `serde_json::from_str::<serde_json::Value>`. -/
def JsonText.parseValue : JsonText → Except String Json
  | .valid v => .ok v
  | .malformed _ => .error "invalid JSON"

/-- True when the text is well-formed JSON. -/
def JsonText.isValid : JsonText → Bool
  | .valid _ => true
  | .malformed _ => false

/-- models.rs: `Permissions` (Default derives to all-false / None). -/
structure Permissions where
  share_with_ai : Bool
  share_with_cloud : Bool
  read_only : Bool
  expires_at : Option String
deriving DecidableEq

def Permissions.defaultPerms : Permissions :=
  { share_with_ai := false, share_with_cloud := false,
    read_only := false, expires_at := none }

/-- models.rs: `Todo`. -/
structure Todo where
  id : Option Nat
  text : String
  completed : Bool
  created_at : String
  updated_at : Option String
  due_date : Option String
  priority : Option String
  tags : Option (List String)
deriving DecidableEq

/-- serde Serialize derive for `Todo`: fields in declaration order,
`None` serialized as `null`. -/
def Todo.toJson (t : Todo) : Json :=
  .obj [
    ("id", match t.id with | some n => .num n | none => .null),
    ("text", .str t.text),
    ("completed", .bool t.completed),
    ("created_at", .str t.created_at),
    ("updated_at", match t.updated_at with | some s => .str s | none => .null),
    ("due_date", match t.due_date with | some s => .str s | none => .null),
    ("priority", match t.priority with | some s => .str s | none => .null),
    ("tags", match t.tags with | some l => .arr (l.map .str) | none => .null)]

/-- First binding of a key in a JSON object. -/
def jsonLookup (fields : List (String × Json)) (k : String) : Option Json :=
  (fields.find? (fun f => f.1 == k)).map (·.2)

def decodeJsonString (field : String) : Json → Except String String
  | .str s => .ok s
  | _ => .error ("invalid type for field " ++ field)

def decodeJsonBool (field : String) : Json → Except String Bool
  | .bool b => .ok b
  | _ => .error ("invalid type for field " ++ field)

/-- serde: an `Option<String>` field is `None` when missing or null. -/
def decodeOptString (field : String) : Option Json → Except String (Option String)
  | none => .ok none
  | some .null => .ok none
  | some (.str s) => .ok (some s)
  | some _ => .error ("invalid type for field " ++ field)

/-- serde: an `Option<u32>` field; out-of-range numbers are errors. -/
def decodeOptU32 (field : String) : Option Json → Except String (Option Nat)
  | none => .ok none
  | some .null => .ok none
  | some (.num n) =>
      if 0 ≤ n ∧ n < 4294967296 then .ok (some n.toNat)
      else .error ("invalid value for field " ++ field)
  | some _ => .error ("invalid type for field " ++ field)

def decodeStringList : List Json → Except String (List String)
  | [] => .ok []
  | x :: xs => do
      let s ← decodeJsonString "tags" x
      let rest ← decodeStringList xs
      .ok (s :: rest)

/-- serde: an `Option<Vec<String>>` field. -/
def decodeOptTags : Option Json → Except String (Option (List String))
  | none => .ok none
  | some .null => .ok none
  | some (.arr xs) => (decodeStringList xs).map some
  | some _ => .error "invalid type for field tags"

def decodeRequired (field : String) (fields : List (String × Json))
    (f : Json → Except String α) : Except String α :=
  match jsonLookup fields field with
  | some v => f v
  | none => .error ("missing field " ++ field)

/-- serde Deserialize derive for `Todo`. -/
def Todo.fromJson : Json → Except String Todo
  | .obj fields => do
      let id ← decodeOptU32 "id" (jsonLookup fields "id")
      let text ← decodeRequired "text" fields (decodeJsonString "text")
      let completed ← decodeRequired "completed" fields (decodeJsonBool "completed")
      let created_at ← decodeRequired "created_at" fields (decodeJsonString "created_at")
      let updated_at ← decodeOptString "updated_at" (jsonLookup fields "updated_at")
      let due_date ← decodeOptString "due_date" (jsonLookup fields "due_date")
      let priority ← decodeOptString "priority" (jsonLookup fields "priority")
      let tags ← decodeOptTags (jsonLookup fields "tags")
      .ok { id, text, completed, created_at, updated_at, due_date, priority, tags }
  | _ => .error "expected object"

/-- Decode used when loading with `T = serde_json::Value`. -/
def decodeValue (j : Json) : Except String Json := .ok j

/-- Errors raised by rusqlite, at the granularity the claims need. -/
inductive SqlError where
  | uniqueConstraintViolation
  | invalidColumnType (msg : String)
deriving DecidableEq

/-- error.rs: `NexusError` (the constructors the modelled code can raise). -/
inductive NexusError where
  | Database (e : SqlError)
  | SchemaNotFound (name : String)
  | ObjectNotFound (id : Int)
  | InvalidSchema (msg : String)
deriving DecidableEq

/-- thiserror `Display` rendering used by `e.to_string()` (message text for
the rusqlite variants is modelled approximately; only its presence matters). -/
def NexusError.render : NexusError → String
  | .Database .uniqueConstraintViolation =>
      "Database error: UNIQUE constraint failed"
  | .Database (.invalidColumnType msg) => "Database error: " ++ msg
  | .SchemaNotFound n => "Schema not found: " ++ n
  | .ObjectNotFound i => "Object not found: " ++ toString i
  | .InvalidSchema m => "Invalid schema definition: " ++ m

abbrev Timestamp := Nat

/-- Row of the `schemas` table. -/
structure SchemaRow where
  id : Int
  schema_name : String
  definition_json : JsonText
  version : String
  created_at : Timestamp

/-- Row of the `data_objects` table. -/
structure DataObjectRow where
  id : Int
  schema_id : Int
  file_path : Option String
  updated_at : Timestamp
  created_at : Timestamp
deriving DecidableEq

/-- Row of the `object_content` table. -/
structure ObjectContentRow where
  object_id : Int
  content_json : Json

/-- Row of the `object_permissions` table. -/
structure ObjectPermissionsRow where
  object_id : Int
  share_with_ai : Bool
  share_with_cloud : Bool
  read_only : Bool
  expires_at : Option String
deriving DecidableEq

/-- The SQLite database created by `Database::initialize_schema`, with the
AUTOINCREMENT counters of `schemas` and `data_objects`. -/
structure DbState where
  schemas : List SchemaRow
  data_objects : List DataObjectRow
  object_content : List ObjectContentRow
  object_permissions : List ObjectPermissionsRow
  next_schema_id : Int
  next_object_id : Int

/-- Fresh database right after `initialize_schema` (SQLite rowids start at 1). -/
def DbState.empty : DbState :=
  { schemas := [], data_objects := [], object_content := [],
    object_permissions := [], next_schema_id := 1, next_object_id := 1 }

/-- database.rs `Database::register_schema`.  Validates that the definition is
well-formed JSON, then runs
`INSERT OR REPLACE INTO schemas (schema_name, definition_json, created_at)`.
With the UNIQUE constraint on `schema_name`, REPLACE first deletes every
conflicting row, and because `PRAGMA foreign_keys = ON` is set and
`data_objects.schema_id` declares `ON DELETE CASCADE`, that delete cascades to
the deleted schemas' objects, whose deletion in turn cascades to their
`object_content` and `object_permissions` rows.  The inserted row takes a
fresh AUTOINCREMENT id (returned by `last_insert_rowid`) and the DEFAULT
version `'1.0.0'`. -/
def register_schema (db : DbState) (schema_name : String)
    (definition_json : JsonText) (now : Timestamp) :
    DbState × Except NexusError Int :=
  match definition_json.parseValue with
  | .error e => (db, .error (.InvalidSchema e))
  | .ok _ =>
    let deletedSchemaIds := (db.schemas.filter
      (fun s => s.schema_name == schema_name)).map (·.id)
    let deletedObjectIds := (db.data_objects.filter
      (fun o => deletedSchemaIds.contains o.schema_id)).map (·.id)
    let newId := db.next_schema_id
    let newRow : SchemaRow :=
      { id := newId, schema_name := schema_name,
        definition_json := definition_json, version := "1.0.0",
        created_at := now }
    ({ schemas := (db.schemas.filter (fun s => !(s.schema_name == schema_name)))
          ++ [newRow],
       data_objects := db.data_objects.filter
          (fun o => !(deletedSchemaIds.contains o.schema_id)),
       object_content := db.object_content.filter
          (fun c => !(deletedObjectIds.contains c.object_id)),
       object_permissions := db.object_permissions.filter
          (fun q => !(deletedObjectIds.contains q.object_id)),
       next_schema_id := newId + 1,
       next_object_id := db.next_object_id }, .ok newId)

/-- The UNIQUE check SQLite performs on `data_objects.file_path`
(NULL values never conflict). -/
def pathConflict (db : DbState) (file_path : Option String) : Bool :=
  match file_path with
  | none => false
  | some p => db.data_objects.any (fun o => o.file_path == some p)

/-- database.rs `Database::save_object`.  Looks up the schema id by name
(`SchemaNotFound` when absent), serializes the content (total for
`serde_json::Value`-like content, modelled by the `Json` argument itself),
then inserts the `data_objects` row (the UNIQUE constraint on `file_path`
rejecting the whole statement on a collision), the `object_content` row and
the `object_permissions` row (defaults when no permissions were given),
returning `last_insert_rowid`. -/
def save_object (db : DbState) (schema_name : String) (content : Json)
    (file_path : Option String) (permissions : Option Permissions)
    (now : Timestamp) : DbState × Except NexusError Int :=
  match db.schemas.find? (fun s => s.schema_name == schema_name) with
  | none => (db, .error (.SchemaNotFound schema_name))
  | some s =>
    let content_json := content
    if pathConflict db file_path then
      (db, .error (.Database .uniqueConstraintViolation))
    else
      let object_id := db.next_object_id
      let perms := permissions.getD Permissions.defaultPerms
      ({ db with
          data_objects := db.data_objects ++
            [{ id := object_id, schema_id := s.id, file_path := file_path,
               updated_at := now, created_at := now }],
          object_content := db.object_content ++
            [{ object_id := object_id, content_json := content_json }],
          object_permissions := db.object_permissions ++
            [{ object_id := object_id,
               share_with_ai := perms.share_with_ai,
               share_with_cloud := perms.share_with_cloud,
               read_only := perms.read_only,
               expires_at := perms.expires_at }],
          next_object_id := object_id + 1 }, .ok object_id)

/-- models.rs `AppObject<T>`. -/
structure AppObject (α : Type) where
  id : Int
  schema_name : String
  content : α
  permissions : Permissions
  file_path : Option String
  updated_at : Timestamp
  created_at : Timestamp

/-- The three inner joins of the load queries
(`JOIN schemas / object_content / object_permissions`): the partner rows of a
`data_objects` row, when they all exist. -/
def joinedRow (db : DbState) (o : DataObjectRow) :
    Option (SchemaRow × ObjectContentRow × ObjectPermissionsRow) := do
  let s ← db.schemas.find? (fun s => s.id == o.schema_id)
  let c ← db.object_content.find? (fun c => c.object_id == o.id)
  let q ← db.object_permissions.find? (fun q => q.object_id == o.id)
  some (s, c, q)

/-- database.rs `Database::load_object::<T>`.  The joined single-row query;
a missing row (or missing join partner) surfaces as `ObjectNotFound`; a
content column that does not deserialize as `T` surfaces as the wrapped
`rusqlite::Error::InvalidColumnType`. -/
def load_object (dec : Json → Except String α) (db : DbState)
    (object_id : Int) : Except NexusError (AppObject α) :=
  match db.data_objects.find? (fun o => o.id == object_id) with
  | none => .error (.ObjectNotFound object_id)
  | some o =>
    match joinedRow db o with
    | none => .error (.ObjectNotFound object_id)
    | some (s, c, q) =>
      match dec c.content_json with
      | .error msg => .error (.Database (.invalidColumnType msg))
      | .ok v => .ok
          { id := o.id, schema_name := s.schema_name, content := v,
            permissions :=
              { share_with_ai := q.share_with_ai,
                share_with_cloud := q.share_with_cloud,
                read_only := q.read_only, expires_at := q.expires_at },
            file_path := o.file_path, updated_at := o.updated_at,
            created_at := o.created_at }

/-- `ORDER BY do.created_at DESC` (insertion sort; ties keep an arbitrary
order, as SQLite leaves them unspecified). -/
def insertByCreatedDesc (o : DataObjectRow) :
    List DataObjectRow → List DataObjectRow
  | [] => [o]
  | x :: xs =>
      if o.created_at ≤ x.created_at then x :: insertByCreatedDesc o xs
      else o :: x :: xs

def sortByCreatedDesc (l : List DataObjectRow) : List DataObjectRow :=
  l.foldr insertByCreatedDesc []

/-- Decoding pass of `load_objects_by_schema`'s `query_map` + collection loop:
rows are decoded in order and the first failure aborts the whole call. -/
def decodeRows (dec : Json → Except String α) :
    List (DataObjectRow × SchemaRow × ObjectContentRow × ObjectPermissionsRow) →
    Except NexusError (List (AppObject α))
  | [] => .ok []
  | (o, s, c, q) :: rest =>
    match dec c.content_json with
    | .error msg => .error (.Database (.invalidColumnType msg))
    | .ok v =>
      (decodeRows dec rest).map (fun tl =>
        { id := o.id, schema_name := s.schema_name, content := v,
          permissions :=
            { share_with_ai := q.share_with_ai,
              share_with_cloud := q.share_with_cloud,
              read_only := q.read_only, expires_at := q.expires_at },
          file_path := o.file_path, updated_at := o.updated_at,
          created_at := o.created_at } :: tl)

/-- database.rs `Database::load_objects_by_schema::<T>`: all objects whose
schema row carries the given name, newest `created_at` first. -/
def load_objects_by_schema (dec : Json → Except String α) (db : DbState)
    (schema_name : String) : Except NexusError (List (AppObject α)) :=
  decodeRows dec ((sortByCreatedDesc db.data_objects).filterMap (fun o =>
    match joinedRow db o with
    | some (s, c, q) =>
        if s.schema_name == schema_name then some (o, s, c, q) else none
    | none => none))

/-- database.rs `Database::update_object_permissions`.  The UPDATE on
`object_permissions` matches rows by `object_id`; when it touched no row the
function returns `ObjectNotFound` (the statement was a no-op), otherwise the
owning object's `updated_at` is bumped to now. -/
def update_object_permissions (db : DbState) (object_id : Int)
    (p : Permissions) (now : Timestamp) : DbState × Except NexusError Unit :=
  if (db.object_permissions.filter (fun q => q.object_id == object_id)).isEmpty
  then (db, .error (.ObjectNotFound object_id))
  else
    ({ db with
        object_permissions := db.object_permissions.map (fun q =>
          if q.object_id == object_id then
            { q with share_with_ai := p.share_with_ai,
                     share_with_cloud := p.share_with_cloud,
                     read_only := p.read_only,
                     expires_at := p.expires_at }
          else q),
        data_objects := db.data_objects.map (fun o =>
          if o.id == object_id then { o with updated_at := now } else o) },
     .ok ())

/-- database.rs `Database::update_object_from_file_path` (the spec's
`touchByPath`): finds the object claiming the path (SELECT ... optional);
when found, bumps its `updated_at` and returns its id; `None` otherwise. -/
def update_object_from_file_path (db : DbState) (file_path : String)
    (now : Timestamp) : DbState × Except NexusError (Option Int) :=
  match db.data_objects.find? (fun o => o.file_path == some file_path) with
  | none => (db, .ok none)
  | some o =>
    ({ db with data_objects := db.data_objects.map (fun o' =>
        if o'.id == o.id then { o' with updated_at := now } else o') },
     .ok (some o.id))

/-! ## Synchronization Engine (sync_service.rs) -/

/-- models.rs `SyncStatus`. -/
structure SyncStatus where
  is_syncing : Bool
  last_sync : Option Timestamp
  pending_changes : Nat
  errors : List String
deriving DecidableEq

/-- The status `SyncService::new` builds. -/
def SyncStatus.initial : SyncStatus :=
  { is_syncing := false, last_sync := none, pending_changes := 0,
    errors := [] }

/-- A filesystem path, as its components (`PathBuf`). -/
abbrev FsPath := List String

/-- `path.to_string_lossy()` for a well-formed unicode path. -/
def fsPathString (p : FsPath) : String := String.intercalate "/" p

/-- `path.file_name()`: the final component. -/
def fileNameOf (p : FsPath) : Option String := p.getLast?

/-- `c` is the first character of `s`. -/
def strStartsWithChar (s : String) (c : Char) : Bool :=
  match s.data with
  | [] => false
  | a :: _ => a == c

/-- `s.ends_with(suffix)`. -/
def strEndsWith (s suffix : String) : Bool :=
  List.isSuffixOf suffix.data s.data

/-- `path.extension() == Some("json")`.  For any file name that has already
passed the hidden-file filter (no leading dot) this agrees with Rust's
`Path::extension`. -/
def hasJsonExtension (p : FsPath) : Bool :=
  match fileNameOf p with
  | some name => strEndsWith name ".json"
  | none => false

/-- `path.starts_with(vault_path.join(".nexus"))`: component-wise prefix. -/
def isUnderNexus (vault : FsPath) (p : FsPath) : Bool :=
  List.isPrefixOf (vault ++ [".nexus"]) p

/-- The temporary/hidden-file filter of `handle_file_event`:
name starts with '.' or '~', or ends with ".tmp" (no skip when the path has
no file name). -/
def isSkippedName (p : FsPath) : Bool :=
  match fileNameOf p with
  | some name =>
      strStartsWithChar name '.' || strStartsWithChar name '~' ||
        strEndsWith name ".tmp"
  | none => false

/-- notify `EventKind`, at the granularity `handle_file_event` matches on. -/
inductive EventKind where
  | create
  | modify
  | remove
  | other
deriving DecidableEq

/-- notify_debouncer_full `DebouncedEvent`: one kind, possibly several paths. -/
structure DebouncedEvent where
  kind : EventKind
  paths : List FsPath

/-- Instrumentation: one Object Store call made by the engine, tagged with the
event path that triggered it. -/
inductive StoreOp where
  | loadBySchema (schema_name : String)
  | touchByPath (file_path : String)
deriving DecidableEq

/-- sync_service.rs `SyncService::sync_todos_file_from_db`: loads all
`core.todo` objects from the database and only logs them (the write-back to
the file is left unimplemented in the source). -/
def sync_todos_file_from_db (db : DbState) : Except NexusError Unit :=
  match load_objects_by_schema Todo.fromJson db "core.todo" with
  | .ok _ => .ok ()
  | .error e => .error e

/-- sync_service.rs `SyncService::handle_json_file_change`: when the file is
named `todos.json`, first runs `sync_todos_file_from_db` (a read), then in all
cases bumps the database timestamp of the object claiming the path.  Returns
the store calls it performed, tagged with the triggering path. -/
def handle_json_file_change (db : DbState) (p : FsPath) (now : Timestamp) :
    List (FsPath × StoreOp) × DbState × Option NexusError :=
  if fileNameOf p == some "todos.json" then
    match sync_todos_file_from_db db with
    | .error e => ([(p, .loadBySchema "core.todo")], db, some e)
    | .ok _ =>
      match update_object_from_file_path db (fsPathString p) now with
      | (db', .ok _) =>
          ([(p, .loadBySchema "core.todo"),
            (p, .touchByPath (fsPathString p))], db', none)
      | (db', .error e) =>
          ([(p, .loadBySchema "core.todo"),
            (p, .touchByPath (fsPathString p))], db', some e)
  else
    match update_object_from_file_path db (fsPathString p) now with
    | (db', .ok _) => ([(p, .touchByPath (fsPathString p))], db', none)
    | (db', .error e) => ([(p, .touchByPath (fsPathString p))], db', some e)

/-- sync_service.rs `SyncService::handle_file_deletion`: only refreshes the
timestamp of the object claiming the deleted path. -/
def handle_file_deletion (db : DbState) (p : FsPath) (now : Timestamp) :
    List (FsPath × StoreOp) × DbState × Option NexusError :=
  match update_object_from_file_path db (fsPathString p) now with
  | (db', .ok _) => ([(p, .touchByPath (fsPathString p))], db', none)
  | (db', .error e) => ([(p, .touchByPath (fsPathString p))], db', some e)

/-- The `for path in &event.paths` loop of `handle_file_event`: paths under
`.nexus` and temporary/hidden names are skipped; Create/Modify on a `.json`
path runs `handle_json_file_change`, Remove runs `handle_file_deletion`; the
first error aborts the loop (the `?` operator), keeping the database mutations
already made.  Returns the store calls performed, the resulting database and
the error, if any. -/
def process_paths (db : DbState) (vault : FsPath) (kind : EventKind)
    (paths : List FsPath) (now : Timestamp) :
    List (FsPath × StoreOp) × DbState × Option NexusError :=
  match paths with
  | [] => ([], db, none)
  | p :: rest =>
    if isUnderNexus vault p then process_paths db vault kind rest now
    else if isSkippedName p then process_paths db vault kind rest now
    else
      match kind with
      | .create | .modify =>
        if hasJsonExtension p then
          match handle_json_file_change db p now with
          | (ops, db', none) =>
            let (ops', db'', e) := process_paths db' vault kind rest now
            (ops ++ ops', db'', e)
          | (ops, db', some e) => (ops, db', some e)
        else process_paths db vault kind rest now
      | .remove =>
        match handle_file_deletion db p now with
        | (ops, db', none) =>
          let (ops', db'', e) := process_paths db' vault kind rest now
          (ops ++ ops', db'', e)
        | (ops, db', some e) => (ops, db', some e)
      | .other => process_paths db vault kind rest now

/-- sync_service.rs `SyncService::handle_file_event`: sets `is_syncing` and
increments `pending_changes`, processes every path of the batch, and — only
when no path handling failed — restores `is_syncing := false`, decrements
`pending_changes` (`saturating_sub`) and sets `last_sync := now`.  On a
failure the `?` operator returns early with the status still in its bumped
mid-batch form. -/
def handle_file_event (db : DbState) (st : SyncStatus) (vault : FsPath)
    (ev : DebouncedEvent) (now : Timestamp) :
    List (FsPath × StoreOp) × DbState × SyncStatus × Option NexusError :=
  let st1 := { st with is_syncing := true,
                       pending_changes := st.pending_changes + 1 }
  match process_paths db vault ev.kind ev.paths now with
  | (ops, db', none) =>
    (ops, db',
     { st1 with is_syncing := false,
                pending_changes := st1.pending_changes - 1,
                last_sync := some now }, none)
  | (ops, db', some e) => (ops, db', st1, some e)

/-- One iteration of the background loop spawned by `SyncService::start`: a
failing `handle_file_event` is caught, and its message is appended to
`SyncStatus.errors`; the loop itself keeps running. -/
def process_event (db : DbState) (st : SyncStatus) (vault : FsPath)
    (ev : DebouncedEvent) (now : Timestamp) :
    List (FsPath × StoreOp) × DbState × SyncStatus :=
  match handle_file_event db st vault ev now with
  | (ops, db', st', none) => (ops, db', st')
  | (ops, db', st', some e) =>
      (ops, db', { st' with errors := st'.errors ++ [e.render] })

/-! ## Reachable-state invariants and concrete fixtures -/

/-- Invariants SQLite maintains for every database reachable through the
store's operations: primary keys are unique and below the AUTOINCREMENT
counters, `schema_name` and non-NULL `file_path` are UNIQUE, every foreign
key resolves, and every object owns exactly one content row and one
permissions row. -/
def DbState.WF (db : DbState) : Prop :=
  db.schemas.Pairwise (fun a b => a.id ≠ b.id ∧ a.schema_name ≠ b.schema_name) ∧
  (∀ s ∈ db.schemas, s.id < db.next_schema_id) ∧
  db.data_objects.Pairwise (fun a b =>
    a.id ≠ b.id ∧ (a.file_path = none ∨ a.file_path ≠ b.file_path)) ∧
  (∀ o ∈ db.data_objects, o.id < db.next_object_id) ∧
  (∀ o ∈ db.data_objects, ∃ s ∈ db.schemas, s.id = o.schema_id) ∧
  (∀ c ∈ db.object_content, ∃ o ∈ db.data_objects, o.id = c.object_id) ∧
  (∀ q ∈ db.object_permissions, ∃ o ∈ db.data_objects, o.id = q.object_id) ∧
  db.object_content.Pairwise (fun a b => a.object_id ≠ b.object_id) ∧
  db.object_permissions.Pairwise (fun a b => a.object_id ≠ b.object_id) ∧
  (∀ o ∈ db.data_objects, ∃ c ∈ db.object_content, c.object_id = o.id) ∧
  (∀ o ∈ db.data_objects, ∃ q ∈ db.object_permissions, q.object_id = o.id)

/-- A small well-formed JSON schema definition. -/
def demoDef : JsonText := .valid (.obj [("type", .str "object")])

/-- The todo record of the spec's first scenario. -/
def demoTodo : Todo :=
  { id := some 1, text := "buy milk", completed := false,
    created_at := "2024-01-01T00:00:00Z", updated_at := none,
    due_date := none, priority := none, tags := none }

/-- Fresh database with the `core.todo` schema registered
(as `Database::new` leaves it). -/
def dbReg : DbState :=
  (register_schema DbState.empty "core.todo" demoDef 0).1

/-- Database holding one `core.todo` object whose content is `{}` — saved
through the public `saveObject` surface (content is only structurally
validated at the application layer), so it does not deserialize as a `Todo`. -/
def exBadDb : DbState :=
  (save_object dbReg "core.todo" (.obj []) none none 1).1

/-- Database holding one `core.todo` object bound to the todos file, exactly
as the initial scan of `Todo/todos.json` leaves it. -/
def exGoodDb : DbState :=
  (save_object dbReg "core.todo" demoTodo.toJson
    (some "vault/Todo/todos.json") none 1).1

/-! ## Helper lemmas -/

theorem find?_eq_none_of_all {α : Type} {l : List α} {p : α → Bool}
    (h : ∀ a ∈ l, p a = false) : l.find? p = none :=
  List.find?_eq_none.mpr (fun a ha hpa => by simp [h a ha] at hpa)

theorem find?_append_right {α : Type} {l₁ l₂ : List α} {p : α → Bool}
    (h : ∀ a ∈ l₁, p a = false) : (l₁ ++ l₂).find? p = l₂.find? p := by
  rw [List.find?_append, find?_eq_none_of_all h, Option.none_or]

theorem find?_map_pred {α : Type} {f : α → α} {p : α → Bool}
    (hf : ∀ a, p (f a) = p a) (l : List α) :
    (l.map f).find? p = (l.find? p).map f := by
  rw [List.find?_map]
  have hpf : (p ∘ f) = p := funext fun a => hf a
  rw [hpf]

theorem pairwise_unique {α : Type} {R : α → α → Prop} {P : α → Prop}
    {l : List α} (hR : l.Pairwise R)
    (h : ∀ a b, R a b → P a → P b → False) :
    ∀ a ∈ l, ∀ b ∈ l, P a → P b → a = b := by
  induction l with
  | nil => intro a ha; simp at ha
  | cons x xs ih =>
    rcases List.pairwise_cons.mp hR with ⟨hx, hxs⟩
    intro a ha b hb hPa hPb
    rcases List.mem_cons.mp ha with ha' | ha' <;>
      rcases List.mem_cons.mp hb with hb' | hb'
    · rw [ha', hb']
    · exact (h x b (ha' ▸ hx b hb') (ha' ▸ hPa) hPb).elim
    · exact (h x a (hb' ▸ hx a ha') (hb' ▸ hPb) hPa).elim
    · exact ih hxs a ha' b hb' hPa hPb

theorem find?_eq_some_of_unique {α : Type} {l : List α} {p : α → Bool} {a : α}
    (ha : a ∈ l) (hpa : p a = true) (hu : ∀ b ∈ l, p b = true → b = a) :
    l.find? p = some a := by
  induction l with
  | nil => simp at ha
  | cons x xs ih =>
    by_cases hx : p x = true
    · have hxa := hu x (List.mem_cons_self x xs) hx
      rw [List.find?_cons_of_pos _ hx, hxa]
    · rw [List.find?_cons_of_neg _ (by simpa using hx)]
      have hax : a ≠ x := fun h => hx (h ▸ hpa)
      have ha' : a ∈ xs := by
        rcases List.mem_cons.mp ha with h | h
        · exact absurd h hax
        · exact h
      exact ih ha' (fun b hb hpb => hu b (List.mem_cons_of_mem _ hb) hpb)

theorem mem_insertByCreatedDesc {o x : DataObjectRow}
    {l : List DataObjectRow} :
    x ∈ insertByCreatedDesc o l ↔ x = o ∨ x ∈ l := by
  induction l with
  | nil => simp [insertByCreatedDesc]
  | cons y ys ih =>
    by_cases h : o.created_at ≤ y.created_at
    · simp only [insertByCreatedDesc, if_pos h, List.mem_cons, ih]
      tauto
    · simp only [insertByCreatedDesc, if_neg h, List.mem_cons]

theorem mem_sortByCreatedDesc {x : DataObjectRow} {l : List DataObjectRow} :
    x ∈ sortByCreatedDesc l ↔ x ∈ l := by
  induction l with
  | nil => simp [sortByCreatedDesc]
  | cons y ys ih =>
    show x ∈ insertByCreatedDesc y (sortByCreatedDesc ys) ↔ _
    rw [mem_insertByCreatedDesc]
    simp only [ih, List.mem_cons]

theorem touch_components (db : DbState) (p : String) (now : Timestamp) :
    (∃ r, (update_object_from_file_path db p now).2 = .ok r) ∧
    (update_object_from_file_path db p now).1.schemas = db.schemas ∧
    (update_object_from_file_path db p now).1.object_content
      = db.object_content ∧
    (update_object_from_file_path db p now).1.object_permissions
      = db.object_permissions ∧
    (update_object_from_file_path db p now).1.next_object_id
      = db.next_object_id ∧
    (update_object_from_file_path db p now).1.next_schema_id
      = db.next_schema_id ∧
    (update_object_from_file_path db p now).1.data_objects.length
      = db.data_objects.length := by
  unfold update_object_from_file_path
  cases h : db.data_objects.find? (fun o => o.file_path == some p) <;> simp

theorem pathConflict_some_false {db : DbState} {p : String}
    (h : ∀ o ∈ db.data_objects, o.file_path ≠ some p) :
    pathConflict db (some p) = false := by
  unfold pathConflict
  rw [List.any_eq_false]
  intro o ho
  simp [h o ho]

theorem find?_schema_of_exists {db : DbState} {n : String}
    (hs : ∃ s ∈ db.schemas, s.schema_name = n) :
    ∃ s₀, db.schemas.find? (fun s => s.schema_name == n) = some s₀ ∧
      s₀.schema_name = n := by
  obtain ⟨s, hmem, hname⟩ := hs
  have hsome : (db.schemas.find? (fun s => s.schema_name == n)).isSome :=
    List.find?_isSome.mpr ⟨s, hmem, by simp [hname]⟩
  obtain ⟨s₀, h₀⟩ := Option.isSome_iff_exists.mp hsome
  exact ⟨s₀, h₀, by simpa using List.find?_some h₀⟩

/-- The successful branch of `save_object`, written out. -/
theorem save_object_ok_eq (db : DbState) (n : String) (c : Json)
    (fp : Option String) (pm : Option Permissions) (now : Timestamp)
    (s : SchemaRow)
    (hf : db.schemas.find? (fun s => s.schema_name == n) = some s)
    (hc : pathConflict db fp = false) :
    save_object db n c fp pm now =
      ({ db with
          data_objects := db.data_objects ++
            [{ id := db.next_object_id, schema_id := s.id, file_path := fp,
               updated_at := now, created_at := now }],
          object_content := db.object_content ++
            [{ object_id := db.next_object_id, content_json := c }],
          object_permissions := db.object_permissions ++
            [{ object_id := db.next_object_id,
               share_with_ai := (pm.getD Permissions.defaultPerms).share_with_ai,
               share_with_cloud :=
                 (pm.getD Permissions.defaultPerms).share_with_cloud,
               read_only := (pm.getD Permissions.defaultPerms).read_only,
               expires_at := (pm.getD Permissions.defaultPerms).expires_at }],
          next_object_id := db.next_object_id + 1 },
       .ok db.next_object_id) := by
  unfold save_object
  rw [hf]
  simp [hc]

/-- The UNIQUE-violation branch of `save_object`, written out. -/
theorem save_object_conflict_eq (db : DbState) (n : String) (c : Json)
    (fp : Option String) (pm : Option Permissions) (now : Timestamp)
    (s : SchemaRow)
    (hf : db.schemas.find? (fun s => s.schema_name == n) = some s)
    (hc : pathConflict db fp = true) :
    save_object db n c fp pm now =
      (db, .error (.Database .uniqueConstraintViolation)) := by
  unfold save_object
  rw [hf]
  simp [hc]

/-! ## Claims -/

/-- **C1.** For every call to `saveObject`, the Object row and its Permissions
row (and its content row) are persisted all-or-nothing: when the call returns
an id, the `data_objects` row and the `object_permissions` row for that id
both exist; on every error path the database is left exactly as it was, so no
error leaves an object row without its permissions row. -/
theorem C1_saveObject_object_and_permissions_atomic
    (db : DbState) (n : String) (c : Json) (fp : Option String)
    (pm : Option Permissions) (now : Timestamp) :
    match save_object db n c fp pm now with
    | (db', .ok id) =>
        (∃ o ∈ db'.data_objects, o.id = id) ∧
        (∃ cc ∈ db'.object_content, cc.object_id = id) ∧
        (∃ q ∈ db'.object_permissions, q.object_id = id)
    | (db', .error _) => db' = db := by
  unfold save_object
  cases hf : db.schemas.find? (fun s => s.schema_name == n) with
  | none => simp
  | some s =>
    by_cases hp : pathConflict db fp
    · simp [hp]
    · simp only [hp, Bool.false_eq_true, if_false]
      refine ⟨⟨_, List.mem_append_right _ (List.mem_singleton.mpr rfl), rfl⟩,
        ⟨_, List.mem_append_right _ (List.mem_singleton.mpr rfl), rfl⟩,
        ⟨_, List.mem_append_right _ (List.mem_singleton.mpr rfl), rfl⟩⟩

/-- **C5.** `registerSchema` is idempotent by name: registering the same name
twice with two well-formed definitions leaves exactly one `schemas` row under
that name, and that row holds the definition from the second registration. -/
theorem C5_registerSchema_idempotent_by_name
    (db : DbState) (n : String) (d1 d2 : JsonText) (t1 t2 : Timestamp)
    (h1 : d1.isValid = true) (h2 : d2.isValid = true) :
    ((register_schema (register_schema db n d1 t1).1 n d2 t2).1.schemas.filter
        (fun s => s.schema_name == n)).length = 1 ∧
    (∀ s ∈ (register_schema (register_schema db n d1 t1).1 n d2 t2).1.schemas,
      s.schema_name = n → s.definition_json = d2 ∧ s.created_at = t2) := by
  cases d1 with
  | malformed r => simp [JsonText.isValid] at h1
  | valid v1 =>
    cases d2 with
    | malformed r => simp [JsonText.isValid] at h2
    | valid v2 =>
      simp only [register_schema, JsonText.parseValue]
      constructor
      · rw [List.filter_append, List.filter_filter]
        simp
      · intro s hs hn
        rcases List.mem_append.mp hs with h | h
        · rcases List.mem_filter.mp h with ⟨_, hpred⟩
          simp [hn] at hpred
        · rcases List.mem_singleton.mp h with rfl
          exact ⟨rfl, rfl⟩

/-- Witness for C5 at a concrete input: registering `core.todo` twice on a
fresh database leaves one row holding the second definition. -/
theorem C5_registerSchema_idempotent_by_name_witness :
    ((register_schema (register_schema DbState.empty "core.todo" demoDef 0).1
        "core.todo" (JsonText.valid (Json.bool true)) 1).1.schemas.filter
        (fun s => s.schema_name == "core.todo")).length = 1 ∧
    (∀ s ∈ (register_schema (register_schema DbState.empty "core.todo" demoDef
        0).1 "core.todo" (JsonText.valid (Json.bool true)) 1).1.schemas,
      s.schema_name = "core.todo" →
        s.definition_json = JsonText.valid (Json.bool true) ∧
        s.created_at = 1) :=
  C5_registerSchema_idempotent_by_name DbState.empty "core.todo" demoDef
    (JsonText.valid (Json.bool true)) 0 1 rfl rfl

/-- **C4.** With a registered schema and fresh paths: a first `saveObject`
claiming path `p` succeeds; a second `saveObject` claiming the same `p` fails
with the store-level UNIQUE-constraint error and leaves the database — in
particular the first object's row — untouched; a second `saveObject` claiming
a distinct fresh path `q` succeeds. -/
theorem C4_saveObject_filePath_unique
    (db : DbState) (n : String) (c1 c2 : Json) (pm1 pm2 : Option Permissions)
    (p q : String) (t1 t2 : Timestamp)
    (hs : ∃ s ∈ db.schemas, s.schema_name = n)
    (hp : ∀ o ∈ db.data_objects, o.file_path ≠ some p)
    (hq : ∀ o ∈ db.data_objects, o.file_path ≠ some q)
    (hpq : p ≠ q) :
    (save_object db n c1 (some p) pm1 t1).2 = .ok db.next_object_id ∧
    save_object (save_object db n c1 (some p) pm1 t1).1 n c2 (some p) pm2 t2
      = ((save_object db n c1 (some p) pm1 t1).1,
         .error (.Database .uniqueConstraintViolation)) ∧
    (save_object (save_object db n c1 (some p) pm1 t1).1 n c2 (some q) pm2
        t2).2
      = .ok (save_object db n c1 (some p) pm1 t1).1.next_object_id := by
  obtain ⟨s₀, hf, hname⟩ := find?_schema_of_exists hs
  have hc1 : pathConflict db (some p) = false := pathConflict_some_false hp
  set dbA : DbState :=
    { db with
        data_objects := db.data_objects ++
          [{ id := db.next_object_id, schema_id := s₀.id,
             file_path := some p, updated_at := t1, created_at := t1 }],
        object_content := db.object_content ++
          [{ object_id := db.next_object_id, content_json := c1 }],
        object_permissions := db.object_permissions ++
          [{ object_id := db.next_object_id,
             share_with_ai :=
               (pm1.getD Permissions.defaultPerms).share_with_ai,
             share_with_cloud :=
               (pm1.getD Permissions.defaultPerms).share_with_cloud,
             read_only := (pm1.getD Permissions.defaultPerms).read_only,
             expires_at := (pm1.getD Permissions.defaultPerms).expires_at }],
        next_object_id := db.next_object_id + 1 } with hA
  have e1 : save_object db n c1 (some p) pm1 t1 = (dbA, .ok db.next_object_id) :=
    save_object_ok_eq db n c1 (some p) pm1 t1 s₀ hf hc1
  have hfA : dbA.schemas.find? (fun s => s.schema_name == n) = some s₀ := hf
  have hobjA : dbA.data_objects = db.data_objects ++
      [{ id := db.next_object_id, schema_id := s₀.id,
         file_path := some p, updated_at := t1, created_at := t1 }] := rfl
  refine ⟨by rw [e1], ?_, ?_⟩
  · rw [e1]
    dsimp only
    refine save_object_conflict_eq _ _ _ _ _ _ s₀ hfA ?_
    unfold pathConflict
    rw [List.any_eq_true, hobjA]
    exact ⟨_, List.mem_append_right _ (List.mem_singleton.mpr rfl), by simp⟩
  · rw [e1]
    dsimp only
    have hcq : pathConflict dbA (some q) = false := by
      apply pathConflict_some_false
      rw [hobjA]
      intro o ho
      rcases List.mem_append.mp ho with h | h
      · exact hq o h
      · rcases List.mem_singleton.mp h with rfl
        simp
        exact fun hh => hpq hh
    rw [save_object_ok_eq dbA n c2 (some q) pm2 t2 s₀ hfA hcq]

/-- Witness for C4 at a concrete input: on the freshly initialized database,
saving at path `a.json` succeeds, saving again at `a.json` fails with the
constraint violation without touching the state, and saving at `b.json`
succeeds. -/
theorem C4_saveObject_filePath_unique_witness :
    (save_object dbReg "core.todo" (Json.obj []) (some "a.json") none 1).2
      = .ok dbReg.next_object_id ∧
    save_object (save_object dbReg "core.todo" (Json.obj []) (some "a.json")
        none 1).1 "core.todo" (Json.bool true) (some "a.json") none 2
      = ((save_object dbReg "core.todo" (Json.obj []) (some "a.json")
          none 1).1,
         .error (.Database .uniqueConstraintViolation)) ∧
    (save_object (save_object dbReg "core.todo" (Json.obj []) (some "a.json")
        none 1).1 "core.todo" (Json.bool true) (some "b.json") none 2).2
      = .ok (save_object dbReg "core.todo" (Json.obj []) (some "a.json")
          none 1).1.next_object_id :=
  C4_saveObject_filePath_unique dbReg "core.todo" (Json.obj [])
    (Json.bool true) none none "a.json" "b.json" 1 2 (by decide) (by decide)
    (by decide) (by decide)

/-- **C7.** On a well-formed database with the schema registered and no
conflicting path claim, `saveObject` succeeds and `loadObject` of the
returned id returns the content structurally equal to the input, under the
same schema name and with the given `filePath`. -/
theorem C7_saveObject_loadObject_roundtrip
    (db : DbState) (n : String) (c : Json) (fp : Option String)
    (pm : Option Permissions) (now : Timestamp)
    (hwf : db.WF)
    (hs : ∃ s ∈ db.schemas, s.schema_name = n)
    (hfp : pathConflict db fp = false) :
    (save_object db n c fp pm now).2 = .ok db.next_object_id ∧
    load_object decodeValue (save_object db n c fp pm now).1 db.next_object_id
      = .ok { id := db.next_object_id, schema_name := n, content := c,
              permissions := pm.getD Permissions.defaultPerms,
              file_path := fp, updated_at := now, created_at := now } := by
  obtain ⟨hsPW, hsLt, hoPW, hoLt, hoFK, hcFK, hqFK, hcPW, hqPW, hoC, hoQ⟩
    := hwf
  obtain ⟨s₀, hf, hname⟩ := find?_schema_of_exists hs
  set newRow : DataObjectRow :=
    { id := db.next_object_id, schema_id := s₀.id, file_path := fp,
      updated_at := now, created_at := now } with hnew
  set dbA : DbState :=
    { db with
        data_objects := db.data_objects ++ [newRow],
        object_content := db.object_content ++
          [{ object_id := db.next_object_id, content_json := c }],
        object_permissions := db.object_permissions ++
          [{ object_id := db.next_object_id,
             share_with_ai :=
               (pm.getD Permissions.defaultPerms).share_with_ai,
             share_with_cloud :=
               (pm.getD Permissions.defaultPerms).share_with_cloud,
             read_only := (pm.getD Permissions.defaultPerms).read_only,
             expires_at := (pm.getD Permissions.defaultPerms).expires_at }],
        next_object_id := db.next_object_id + 1 } with hA
  have e1 : save_object db n c fp pm now = (dbA, .ok db.next_object_id) :=
    save_object_ok_eq db n c fp pm now s₀ hf hfp
  rw [e1]
  refine ⟨rfl, ?_⟩
  dsimp only
  have h1 : ∀ o ∈ db.data_objects, (o.id == db.next_object_id) = false :=
    fun o ho => by simp [ne_of_lt (hoLt o ho)]
  have hfo : dbA.data_objects.find? (fun o => o.id == db.next_object_id)
      = some newRow := by
    show (db.data_objects ++ [newRow]).find? _ = _
    rw [find?_append_right h1]
    simp [List.find?]
  have h2 : ∀ cc ∈ db.object_content,
      (cc.object_id == db.next_object_id) = false := fun cc hcc => by
    obtain ⟨o, ho, hoid⟩ := hcFK cc hcc
    have hlt := hoLt o ho
    rw [hoid] at hlt
    simp [ne_of_lt hlt]
  have h3 : ∀ qq ∈ db.object_permissions,
      (qq.object_id == db.next_object_id) = false := fun qq hqq => by
    obtain ⟨o, ho, hoid⟩ := hqFK qq hqq
    have hlt := hoLt o ho
    rw [hoid] at hlt
    simp [ne_of_lt hlt]
  have hfs : dbA.schemas.find? (fun s => s.id == newRow.schema_id)
      = some s₀ := by
    show db.schemas.find? (fun s => s.id == s₀.id) = some s₀
    apply find?_eq_some_of_unique (List.mem_of_find?_eq_some hf) (by simp)
    intro b hb hpb
    exact pairwise_unique (P := fun x => x.id = s₀.id) hsPW
      (fun a b hR hPa hPb => hR.1 (hPa.trans hPb.symm)) b hb s₀
      (List.mem_of_find?_eq_some hf) (by simpa using hpb) rfl
  have hfc : dbA.object_content.find?
      (fun cc => cc.object_id == newRow.id)
      = some { object_id := db.next_object_id, content_json := c } := by
    show (db.object_content ++ _).find? (fun cc => cc.object_id == db.next_object_id) = _
    rw [find?_append_right h2]
    simp [List.find?]
  have hfq : dbA.object_permissions.find?
      (fun qq => qq.object_id == newRow.id)
      = some { object_id := db.next_object_id,
               share_with_ai :=
                 (pm.getD Permissions.defaultPerms).share_with_ai,
               share_with_cloud :=
                 (pm.getD Permissions.defaultPerms).share_with_cloud,
               read_only := (pm.getD Permissions.defaultPerms).read_only,
               expires_at :=
                 (pm.getD Permissions.defaultPerms).expires_at } := by
    show (db.object_permissions ++ _).find?
      (fun qq => qq.object_id == db.next_object_id) = _
    rw [find?_append_right h3]
    simp [List.find?]
  unfold load_object joinedRow
  rw [hfo]
  dsimp only
  rw [hfs, hfc, hfq]
  simp [Option.bind, decodeValue, hname]

/-- Witness for C7 at a concrete input: save-then-load round-trips on the
freshly initialized database. -/
theorem C7_saveObject_loadObject_roundtrip_witness :
    (save_object dbReg "core.todo" (Json.str "x") (some "a.json") none 5).2
      = .ok dbReg.next_object_id ∧
    load_object decodeValue
      (save_object dbReg "core.todo" (Json.str "x") (some "a.json") none 5).1
      dbReg.next_object_id
      = .ok { id := dbReg.next_object_id, schema_name := "core.todo",
              content := Json.str "x",
              permissions := Permissions.defaultPerms,
              file_path := some "a.json", updated_at := 5, created_at := 5 } :=
  C7_saveObject_loadObject_roundtrip dbReg "core.todo" (Json.str "x")
    (some "a.json") none 5 (by unfold DbState.WF; decide) (by decide)
    (by decide)

theorem joinedRow_schema_find {db : DbState} {o : DataObjectRow}
    {s : SchemaRow} {c : ObjectContentRow} {q : ObjectPermissionsRow}
    (h : joinedRow db o = some (s, c, q)) :
    db.schemas.find? (fun s' => s'.id == o.schema_id) = some s := by
  unfold joinedRow at h
  cases hs : db.schemas.find? (fun s' => s'.id == o.schema_id) with
  | none => rw [hs] at h; simp at h
  | some s₁ =>
    rw [hs] at h
    cases hc : db.object_content.find? (fun c' => c'.object_id == o.id) with
    | none => rw [hc] at h; simp [Option.bind] at h
    | some c₁ =>
      rw [hc] at h
      cases hq : db.object_permissions.find?
          (fun q' => q'.object_id == o.id) with
      | none => rw [hq] at h; simp [Option.bind] at h
      | some q₁ =>
        rw [hq] at h
        simp [Option.bind] at h
        rw [h.1]

theorem contains_iff {α : Type} [BEq α] [LawfulBEq α] {l : List α} {a : α} :
    l.contains a = true ↔ a ∈ l := by
  show List.elem a l = true ↔ a ∈ l
  exact List.elem_iff

/-- The successful branch of `register_schema`, written out. -/
theorem register_schema_ok_eq (db : DbState) (n : String) (v : Json)
    (now : Timestamp) :
    register_schema db n (.valid v) now =
      ({ schemas := (db.schemas.filter (fun s => !(s.schema_name == n))) ++
            [{ id := db.next_schema_id, schema_name := n,
               definition_json := .valid v, version := "1.0.0",
               created_at := now }],
         data_objects := db.data_objects.filter (fun o =>
           !(((db.schemas.filter (fun s => s.schema_name == n)).map
               (·.id)).contains o.schema_id)),
         object_content := db.object_content.filter (fun c =>
           !(((db.data_objects.filter (fun o =>
                 ((db.schemas.filter (fun s => s.schema_name == n)).map
                   (·.id)).contains o.schema_id)).map
               (·.id)).contains c.object_id)),
         object_permissions := db.object_permissions.filter (fun q =>
           !(((db.data_objects.filter (fun o =>
                 ((db.schemas.filter (fun s => s.schema_name == n)).map
                   (·.id)).contains o.schema_id)).map
               (·.id)).contains q.object_id)),
         next_schema_id := db.next_schema_id + 1,
         next_object_id := db.next_object_id }, .ok db.next_schema_id) := rfl

/-- When no object of `dbB` joins to a schema row named `n`, the by-schema
query returns the empty list. -/
theorem load_objects_by_schema_nil {α : Type} (dec : Json → Except String α)
    (dbB : DbState) (n : String)
    (h : ∀ o ∈ dbB.data_objects, ∀ s,
      dbB.schemas.find? (fun s' => s'.id == o.schema_id) = some s →
        (s.schema_name == n) = false) :
    load_objects_by_schema dec dbB n = .ok [] := by
  suffices hnil : (sortByCreatedDesc dbB.data_objects).filterMap (fun o =>
      match joinedRow dbB o with
      | some (s, c, q) =>
          if s.schema_name == n then some (o, s, c, q) else none
      | none => none) = [] by
    unfold load_objects_by_schema
    rw [hnil]
    rfl
  apply List.filterMap_eq_nil_iff.mpr
  intro o' ho'
  have ho'mem := mem_sortByCreatedDesc.mp ho'
  cases hj : joinedRow dbB o' with
  | none => simp [hj]
  | some t =>
    obtain ⟨s', c', q'⟩ := t
    have hfind := joinedRow_schema_find hj
    have hfalse := h o' ho'mem s' hfind
    simp [hj, hfalse]

/-- **C6.** Re-registering an already-registered schema name replaces the
`schemas` row delete-plus-insert style: the call returns a fresh id different
from every existing schema id, and, through `ON DELETE CASCADE`, every object
previously saved under that schema name is deleted — its `data_objects` row
no longer loads, its content and permissions rows are gone, and the by-name
query under the re-registered name returns the empty list. -/
theorem C6_reregister_new_id_and_cascade_deletes_objects
    (db : DbState) (n : String) (d : JsonText) (now : Timestamp)
    (hwf : db.WF) (hv : d.isValid = true) :
    (register_schema db n d now).2 = .ok db.next_schema_id ∧
    (∀ s ∈ db.schemas, s.id ≠ db.next_schema_id) ∧
    (∀ o ∈ db.data_objects,
      (∃ s ∈ db.schemas, s.id = o.schema_id ∧ s.schema_name = n) →
        load_object decodeValue (register_schema db n d now).1 o.id
          = .error (.ObjectNotFound o.id) ∧
        (∀ cc ∈ (register_schema db n d now).1.object_content,
          cc.object_id ≠ o.id) ∧
        (∀ qq ∈ (register_schema db n d now).1.object_permissions,
          qq.object_id ≠ o.id)) ∧
    load_objects_by_schema decodeValue (register_schema db n d now).1 n
      = .ok [] := by
  obtain ⟨hsPW, hsLt, hoPW, hoLt, hoFK, hcFK, hqFK, hcPW, hqPW, hoC, hoQ⟩
    := hwf
  cases d with
  | malformed r => simp [JsonText.isValid] at hv
  | valid v =>
  rw [register_schema_ok_eq]
  dsimp only
  refine ⟨rfl, fun s hsm => ne_of_lt (hsLt s hsm), ?_, ?_⟩
  · intro o ho hex
    obtain ⟨s, hsmem, hsid, hsname⟩ := hex
    have hinS : ((db.schemas.filter (fun s' => s'.schema_name == n)).map
        (·.id)).contains o.schema_id = true := by
      rw [contains_iff]
      exact List.mem_map.mpr
        ⟨s, List.mem_filter.mpr ⟨hsmem, by simp [hsname]⟩, hsid⟩
    have hinO : ((db.data_objects.filter (fun o' =>
        ((db.schemas.filter (fun s' => s'.schema_name == n)).map
          (·.id)).contains o'.schema_id)).map (·.id)).contains o.id
        = true := by
      rw [contains_iff]
      exact List.mem_map.mpr ⟨o, List.mem_filter.mpr ⟨ho, hinS⟩, rfl⟩
    refine ⟨?_, ?_, ?_⟩
    · unfold load_object
      have hnone : (db.data_objects.filter (fun o' =>
          !(((db.schemas.filter (fun s' => s'.schema_name == n)).map
              (·.id)).contains o'.schema_id))).find?
          (fun o' => o'.id == o.id) = none := by
        apply find?_eq_none_of_all
        intro a ha
        obtain ⟨haMem, haPred⟩ := List.mem_filter.mp ha
        by_cases hbeq : a.id = o.id
        · exfalso
          have hao : a = o := pairwise_unique (P := fun x => x.id = o.id)
            hoPW (fun x y hR hPx hPy => hR.1 (hPx.trans hPy.symm)) a haMem
            o ho hbeq rfl
          rw [hao, hinS] at haPred
          simp at haPred
        · simp [hbeq]
      rw [hnone]
    · intro cc hcc hccid
      obtain ⟨hccMem, hccPred⟩ := List.mem_filter.mp hcc
      rw [hccid, hinO] at hccPred
      simp at hccPred
    · intro qq hqq hqqid
      obtain ⟨hqqMem, hqqPred⟩ := List.mem_filter.mp hqq
      rw [hqqid, hinO] at hqqPred
      simp at hqqPred
  · apply load_objects_by_schema_nil
    intro o ho s hfind
    have hsmem := List.mem_of_find?_eq_some hfind
    have hsid : s.id = o.schema_id := by simpa using List.find?_some hfind
    obtain ⟨hoMem, hoPred⟩ := List.mem_filter.mp ho
    rcases List.mem_append.mp hsmem with hin | hin
    · obtain ⟨_, hsPred⟩ := List.mem_filter.mp hin
      simpa using hsPred
    · exfalso
      rcases List.mem_singleton.mp hin with rfl
      obtain ⟨s₂, hs₂mem, hs₂id⟩ := hoFK o hoMem
      have := hsLt s₂ hs₂mem
      rw [hs₂id, ← hsid] at this
      exact lt_irrefl _ this

/-- Witness for C6 at a concrete input: re-registering `core.todo` on a
database holding one `core.todo` object deletes that object and its content
and permissions rows. -/
theorem C6_reregister_new_id_and_cascade_deletes_objects_witness :
    (register_schema exGoodDb "core.todo" demoDef 9).2
      = .ok exGoodDb.next_schema_id ∧
    (∀ s ∈ exGoodDb.schemas, s.id ≠ exGoodDb.next_schema_id) ∧
    (∀ o ∈ exGoodDb.data_objects,
      (∃ s ∈ exGoodDb.schemas,
          s.id = o.schema_id ∧ s.schema_name = "core.todo") →
        load_object decodeValue
          (register_schema exGoodDb "core.todo" demoDef 9).1 o.id
          = .error (.ObjectNotFound o.id) ∧
        (∀ cc ∈ (register_schema exGoodDb "core.todo"
            demoDef 9).1.object_content, cc.object_id ≠ o.id) ∧
        (∀ qq ∈ (register_schema exGoodDb "core.todo"
            demoDef 9).1.object_permissions, qq.object_id ≠ o.id)) ∧
    load_objects_by_schema decodeValue
      (register_schema exGoodDb "core.todo" demoDef 9).1 "core.todo"
      = .ok [] :=
  C6_reregister_new_id_and_cascade_deletes_objects exGoodDb "core.todo"
    demoDef 9 (by unfold DbState.WF; decide) rfl

theorem joinedRow_inv {db : DbState} {o : DataObjectRow} {s : SchemaRow}
    {c : ObjectContentRow} {q : ObjectPermissionsRow}
    (h : joinedRow db o = some (s, c, q)) :
    db.schemas.find? (fun s' => s'.id == o.schema_id) = some s ∧
    db.object_content.find? (fun c' => c'.object_id == o.id) = some c ∧
    db.object_permissions.find? (fun q' => q'.object_id == o.id) = some q := by
  unfold joinedRow at h
  cases hs : db.schemas.find? (fun s' => s'.id == o.schema_id) with
  | none => rw [hs] at h; simp at h
  | some s₁ =>
    rw [hs] at h
    cases hc : db.object_content.find? (fun c' => c'.object_id == o.id) with
    | none => rw [hc] at h; simp [Option.bind] at h
    | some c₁ =>
      rw [hc] at h
      cases hq : db.object_permissions.find?
          (fun q' => q'.object_id == o.id) with
      | none => rw [hq] at h; simp [Option.bind] at h
      | some q₁ =>
        rw [hq] at h
        simp [Option.bind] at h
        exact ⟨by rw [h.1], by rw [h.2.1], by rw [h.2.2]⟩

theorem load_object_inv {α : Type} {dec : Json → Except String α}
    {db : DbState} {oid : Int} {a : AppObject α}
    (h : load_object dec db oid = .ok a) :
    ∃ o s c q v, db.data_objects.find? (fun o' => o'.id == oid) = some o ∧
      joinedRow db o = some (s, c, q) ∧ dec c.content_json = .ok v ∧
      a = { id := o.id, schema_name := s.schema_name, content := v,
            permissions :=
              { share_with_ai := q.share_with_ai,
                share_with_cloud := q.share_with_cloud,
                read_only := q.read_only, expires_at := q.expires_at },
            file_path := o.file_path, updated_at := o.updated_at,
            created_at := o.created_at } := by
  unfold load_object at h
  split at h
  · exact absurd h (by simp)
  next o hf =>
    split at h
    · exact absurd h (by simp)
    next s c q hj =>
      split at h
      · exact absurd h (by simp)
      next v hd =>
        rw [Except.ok.injEq] at h
        exact ⟨o, s, c, q, v, hf, hj, hd, h.symm⟩

/-- `joinedRow` on a state whose `data_objects` list was replaced and whose
`object_permissions` were mapped by an `object_id`-preserving function. -/
theorem joinedRow_perm_map (db : DbState) (l' : List DataObjectRow)
    (fq : ObjectPermissionsRow → ObjectPermissionsRow)
    (hpres : ∀ j a, ((fq a).object_id == j) = (a.object_id == j))
    (o : DataObjectRow) :
    joinedRow
      { db with
          data_objects := l',
          object_permissions := db.object_permissions.map fq } o
      = (joinedRow db o).map (fun t => (t.1, t.2.1, fq t.2.2)) := by
  unfold joinedRow
  cases hs : db.schemas.find? (fun s' => s'.id == o.schema_id) <;>
  cases hc : db.object_content.find? (fun c' => c'.object_id == o.id) <;>
  cases hq : db.object_permissions.find? (fun q' => q'.object_id == o.id) <;>
    simp [Option.bind, hs, hc, hq,
      find?_map_pred (f := fq) (p := fun q' => q'.object_id == o.id)
        (hpres o.id)]

/-- **C8.** `updatePermissions` on an id with no existing object fails with
`ObjectNotFound` and mutates nothing; on an existing id (witnessed by a
successful load) it succeeds, the reloaded object carries the new permissions
and `updated_at = now` with every other field unchanged, every other object
loads unchanged, and the schema and content tables are untouched. -/
theorem C8_updatePermissions_notfound_or_in_place
    (db : DbState) (oid : Int) (pm : Permissions) (now : Timestamp)
    (hwf : db.WF) :
    ((∀ o ∈ db.data_objects, o.id ≠ oid) →
        update_object_permissions db oid pm now
          = (db, .error (.ObjectNotFound oid))) ∧
    (∀ old, load_object decodeValue db oid = .ok old →
        (update_object_permissions db oid pm now).2 = .ok () ∧
        load_object decodeValue (update_object_permissions db oid pm now).1
            oid
          = .ok { old with permissions := pm, updated_at := now } ∧
        (∀ j, j ≠ oid →
          load_object decodeValue (update_object_permissions db oid pm now).1
              j
            = load_object decodeValue db j) ∧
        (update_object_permissions db oid pm now).1.schemas = db.schemas ∧
        (update_object_permissions db oid pm now).1.object_content
          = db.object_content) := by
  obtain ⟨hsPW, hsLt, hoPW, hoLt, hoFK, hcFK, hqFK, hcPW, hqPW, hoC, hoQ⟩
    := hwf
  constructor
  · intro habs
    unfold update_object_permissions
    have hfil : db.object_permissions.filter (fun q => q.object_id == oid)
        = [] := by
      rw [List.filter_eq_nil_iff]
      intro q hq
      obtain ⟨o, ho, hoid⟩ := hqFK q hq
      have hne := habs o ho
      rw [hoid] at hne
      simp [hne]
    rw [hfil]
    rfl
  · intro old hload
    obtain ⟨o, s, c, q, v, hf, hj, hdec, holdEq⟩ := load_object_inv hload
    obtain ⟨hjs, hjc, hjq⟩ := joinedRow_inv hj
    have hoid : o.id = oid := by simpa using List.find?_some hf
    have hqoid : q.object_id = o.id := by simpa using List.find?_some hjq
    have hvc : v = c.content_json := by
      unfold decodeValue at hdec
      exact ((Except.ok.injEq _ _).mp hdec).symm
    have hfilne : (db.object_permissions.filter
        (fun q' => q'.object_id == oid)).isEmpty = false := by
      rw [List.isEmpty_eq_false]
      apply List.ne_nil_of_mem (a := q)
      exact List.mem_filter.mpr
        ⟨List.mem_of_find?_eq_some hjq, by simp [hqoid, hoid]⟩
    have hupd : update_object_permissions db oid pm now =
      ({ db with
          object_permissions := db.object_permissions.map (fun q' =>
            if q'.object_id == oid then
              { q' with share_with_ai := pm.share_with_ai,
                        share_with_cloud := pm.share_with_cloud,
                        read_only := pm.read_only,
                        expires_at := pm.expires_at }
            else q'),
          data_objects := db.data_objects.map (fun o' =>
            if o'.id == oid then { o' with updated_at := now } else o') },
       .ok ()) := by
      unfold update_object_permissions
      rw [hfilne]
      rfl
    have presT : ∀ j : Int, ∀ a : DataObjectRow,
        ((if a.id == oid then { a with updated_at := now } else a).id == j)
          = (a.id == j) := by
      intro j a
      by_cases h : a.id == oid <;> simp [h]
    have presQ : ∀ j : Int, ∀ a : ObjectPermissionsRow,
        ((if a.object_id == oid then
            { a with share_with_ai := pm.share_with_ai,
                     share_with_cloud := pm.share_with_cloud,
                     read_only := pm.read_only,
                     expires_at := pm.expires_at }
          else a).object_id == j) = (a.object_id == j) := by
      intro j a
      by_cases h : a.object_id == oid <;> simp [h]
    have hQmap : ∀ jj : Int,
        (db.object_permissions.map (fun q' =>
          if q'.object_id == oid then
            { q' with share_with_ai := pm.share_with_ai,
                      share_with_cloud := pm.share_with_cloud,
                      read_only := pm.read_only,
                      expires_at := pm.expires_at }
          else q')).find? (fun q' => q'.object_id == jj)
        = (db.object_permissions.find? (fun q' => q'.object_id == jj)).map
            (fun q' =>
              if q'.object_id == oid then
                { q' with share_with_ai := pm.share_with_ai,
                          share_with_cloud := pm.share_with_cloud,
                          read_only := pm.read_only,
                          expires_at := pm.expires_at }
              else q') :=
      fun jj => find?_map_pred (presQ jj) db.object_permissions
    refine ⟨by rw [hupd], ?_, ?_, by rw [hupd], by rw [hupd]⟩
    · rw [hupd]
      dsimp only
      unfold load_object joinedRow
      rw [find?_map_pred (presT oid), hf]
      have htouch : (if o.id == oid then { o with updated_at := now } else o)
          = { o with updated_at := now } := by simp [hoid]
      rw [Option.map_some', htouch]
      dsimp only
      rw [hjs, hjc, find?_map_pred (presQ o.id), hjq]
      have hsetq : (if q.object_id == oid then
          { q with share_with_ai := pm.share_with_ai,
                   share_with_cloud := pm.share_with_cloud,
                   read_only := pm.read_only,
                   expires_at := pm.expires_at }
          else q)
          = { q with share_with_ai := pm.share_with_ai,
                     share_with_cloud := pm.share_with_cloud,
                     read_only := pm.read_only,
                     expires_at := pm.expires_at } := by
        simp [hqoid, hoid]
      rw [Option.map_some', hsetq]
      simp [Option.bind, decodeValue, holdEq, hvc]
    · intro j hjne
      rw [hupd]
      dsimp only
      unfold load_object
      rw [find?_map_pred (presT j)]
      cases hfj : db.data_objects.find? (fun o' => o'.id == j) with
      | none => rfl
      | some oj =>
        have hojid : oj.id = j := by simpa using List.find?_some hfj
        have hne2 : (oj.id == oid) = false := by
          rw [hojid]
          simp [hjne]
        have htj : (if oj.id == oid then { oj with updated_at := now }
            else oj) = oj := by simp [hne2]
        rw [Option.map_some', htj]
        dsimp only
        rw [joinedRow_perm_map db _ _ presQ oj]
        cases hj2 : joinedRow db oj with
        | none => rfl
        | some t =>
          obtain ⟨s2, c2, q2⟩ := t
          have hq2ne : q2.object_id ≠ oid := by
            have hq2e : q2.object_id = oj.id := by
              simpa using List.find?_some (joinedRow_inv hj2).2.2
            rw [hq2e, hojid]
            exact hjne
          simp [hq2ne]

/-- Witness for C8 at concrete inputs: updating permissions of the absent id
99 fails without mutating the database; updating the existing id 1 succeeds
and the reloaded object carries the new permissions with `updated_at` bumped. -/
theorem C8_updatePermissions_notfound_or_in_place_witness :
    update_object_permissions exGoodDb 99
        { share_with_ai := true, share_with_cloud := true,
          read_only := true, expires_at := none } 7
      = (exGoodDb, .error (.ObjectNotFound 99)) ∧
    (update_object_permissions exGoodDb 1
        { share_with_ai := true, share_with_cloud := true,
          read_only := true, expires_at := none } 7).2 = .ok () ∧
    load_object decodeValue (update_object_permissions exGoodDb 1
        { share_with_ai := true, share_with_cloud := true,
          read_only := true, expires_at := none } 7).1 1
      = .ok { id := 1, schema_name := "core.todo",
              content := demoTodo.toJson,
              permissions :=
                { share_with_ai := true, share_with_cloud := true,
                  read_only := true, expires_at := none },
              file_path := some "vault/Todo/todos.json",
              updated_at := 7, created_at := 1 } := by
  have h99 := C8_updatePermissions_notfound_or_in_place exGoodDb 99
    { share_with_ai := true, share_with_cloud := true,
      read_only := true, expires_at := none } 7
    (by unfold DbState.WF; decide)
  have h1 := C8_updatePermissions_notfound_or_in_place exGoodDb 1
    { share_with_ai := true, share_with_cloud := true,
      read_only := true, expires_at := none } 7
    (by unfold DbState.WF; decide)
  have hold : load_object decodeValue exGoodDb 1
      = .ok { id := 1, schema_name := "core.todo",
              content := demoTodo.toJson,
              permissions := Permissions.defaultPerms,
              file_path := some "vault/Todo/todos.json",
              updated_at := 1, created_at := 1 } := rfl
  refine ⟨h99.1 (by decide), (h1.2 _ hold).1, ?_⟩
  exact (h1.2 _ hold).2.1

/-- **C9.** `touchByPath` on a path no object claims returns `None` (not an
error) and changes no stored state; when an object claims the path it returns
`Some` of that object's id and bumps exactly that object's `updated_at` to
now, leaving every other field, every other object and all other tables
unchanged (the result state differs from the input state only in that one
row's `updated_at`). -/
theorem C9_touchByPath_none_or_bump
    (db : DbState) (p : String) (now : Timestamp) (hwf : db.WF) :
    ((∀ o ∈ db.data_objects, o.file_path ≠ some p) →
        update_object_from_file_path db p now = (db, .ok none)) ∧
    (∀ o ∈ db.data_objects, o.file_path = some p →
        update_object_from_file_path db p now =
          ({ db with data_objects := db.data_objects.map (fun o' =>
              if o'.id == o.id then { o' with updated_at := now } else o') },
           .ok (some o.id))) := by
  obtain ⟨hsPW, hsLt, hoPW, hoLt, hoFK, hcFK, hqFK, hcPW, hqPW, hoC, hoQ⟩
    := hwf
  constructor
  · intro habs
    unfold update_object_from_file_path
    have hnone : db.data_objects.find? (fun o => o.file_path == some p)
        = none := by
      apply find?_eq_none_of_all
      intro o ho
      simp [habs o ho]
    rw [hnone]
  · intro o ho hop
    unfold update_object_from_file_path
    have hsome : db.data_objects.find? (fun o' => o'.file_path == some p)
        = some o := by
      apply find?_eq_some_of_unique ho (by simp [hop])
      intro b hb hpb
      exact pairwise_unique (P := fun x => x.file_path = some p) hoPW
        (fun x y hR hPx hPy => by
          rcases hR.2 with h | h
          · rw [hPx] at h; exact Option.noConfusion h
          · rw [hPx, hPy] at h; exact h rfl)
        b hb o ho (by simpa using hpb) hop
    rw [hsome]

/-- Witness for C9 at concrete inputs: touching an unclaimed path returns
`none` and leaves the state unchanged; touching the claimed todos path
returns `some 1`. -/
theorem C9_touchByPath_none_or_bump_witness :
    update_object_from_file_path exGoodDb "nope" 7 = (exGoodDb, .ok none) ∧
    (update_object_from_file_path exGoodDb "vault/Todo/todos.json" 7).2
      = .ok (some 1) := by
  have h := C9_touchByPath_none_or_bump exGoodDb "nope" 7
    (by unfold DbState.WF; decide)
  have h2 := C9_touchByPath_none_or_bump exGoodDb "vault/Todo/todos.json" 7
    (by unfold DbState.WF; decide)
  refine ⟨h.1 (by decide), ?_⟩
  have he := h2.2
    { id := 1, schema_id := 1, file_path := some "vault/Todo/todos.json",
      updated_at := 1, created_at := 1 } (by decide) rfl
  rw [he]

/-- **C2 (amended).** Each debounced batch bumps `pending_changes` and sets
`is_syncing := true`; when every path of the batch is handled successfully
the handler restores `is_syncing := false`, brings `pending_changes` back to
its pre-batch value and sets `last_sync := now`.  When handling of a path
fails, however, the handler returns early: the watch loop appends the error
to `SyncStatus.errors` and keeps running, but `is_syncing` stays `true`,
`pending_changes` stays incremented and `last_sync` is not updated. -/
theorem C2A_batch_status_restored_only_on_success
    (db : DbState) (st : SyncStatus) (vault : FsPath) (ev : DebouncedEvent)
    (now : Timestamp) :
    match handle_file_event db st vault ev now with
    | (_, _, st', none) =>
        st'.is_syncing = false ∧
        st'.pending_changes = st.pending_changes ∧
        st'.last_sync = some now ∧ st'.errors = st.errors ∧
        (process_event db st vault ev now).2.2 = st'
    | (_, _, st', some e) =>
        st'.is_syncing = true ∧
        st'.pending_changes = st.pending_changes + 1 ∧
        st'.last_sync = st.last_sync ∧ st'.errors = st.errors ∧
        (process_event db st vault ev now).2.2.errors
          = st.errors ++ [e.render] := by
  cases h : process_paths db vault ev.kind ev.paths now with
  | mk ops t =>
    obtain ⟨db', err⟩ := t
    cases err with
    | none => simp [handle_file_event, process_event, h]
    | some e => simp [handle_file_event, process_event, h]

/-- **C2 (counterexample).** A debounced Modify batch on `Todo/todos.json`
processed over a database that holds a `core.todo` object whose content does
not deserialize as a `Todo` (stored through the public `saveObject` surface)
fails mid-handling: afterwards `is_syncing` is still `true`,
`pending_changes` is still 1 and `last_sync` was never set — the status was
not restored as the claim states, only the error was recorded. -/
theorem C2_counterexample_failed_batch_leaves_status_stuck :
    (process_event exBadDb SyncStatus.initial ["vault"]
        { kind := .modify, paths := [["vault", "Todo", "todos.json"]] }
        2).2.2.is_syncing = true ∧
    (process_event exBadDb SyncStatus.initial ["vault"]
        { kind := .modify, paths := [["vault", "Todo", "todos.json"]] }
        2).2.2.pending_changes = 1 ∧
    (process_event exBadDb SyncStatus.initial ["vault"]
        { kind := .modify, paths := [["vault", "Todo", "todos.json"]] }
        2).2.2.last_sync = none ∧
    (process_event exBadDb SyncStatus.initial ["vault"]
        { kind := .modify, paths := [["vault", "Todo", "todos.json"]] }
        2).2.2.errors.length = 1 := by
  decide

/-- **C3 (amended).** A Create/Modify event on a `todos.json` file causes the
engine to load the existing `core.todo` objects from the store (the
write-back side of `sync_todos_file_from_db` is a stub that only logs) and to
refresh, via `touchByPath`, the timestamp of the object claiming the path.
It performs no re-parse of the file and no upsert: on success exactly the two
read/touch store calls happen and the object count, content and permissions
tables are unchanged; on a failed load the database is untouched. -/
theorem C3A_todos_event_only_loads_and_touches
    (db : DbState) (p : FsPath) (now : Timestamp)
    (h : fileNameOf p = some "todos.json") :
    match handle_json_file_change db p now with
    | (ops, db', none) =>
        ops = [(p, .loadBySchema "core.todo"),
               (p, .touchByPath (fsPathString p))] ∧
        db'.schemas = db.schemas ∧
        db'.object_content = db.object_content ∧
        db'.object_permissions = db.object_permissions ∧
        db'.next_object_id = db.next_object_id ∧
        db'.data_objects.length = db.data_objects.length
    | (ops, db', some _) =>
        ops = [(p, .loadBySchema "core.todo")] ∧ db' = db := by
  cases hs : sync_todos_file_from_db db with
  | error e => simp [handle_json_file_change, h, hs]
  | ok u =>
    have hT := touch_components db (fsPathString p) now
    obtain ⟨⟨r, hr⟩, hsch, hcon, hperm, hnoid, hnsid, hlen⟩ := hT
    cases hu : update_object_from_file_path db (fsPathString p) now with
    | mk db' res =>
      cases res with
      | error e =>
        rw [hu] at hr
        simp at hr
      | ok oid =>
        rw [hu] at hsch hcon hperm hnoid hlen
        dsimp only at hsch hcon hperm hnoid hlen
        simp [handle_json_file_change, h, hs, hu, hsch, hcon, hperm,
          hnoid, hlen]

/-- Witness for C3 (amended) at a concrete input: processing a change of the
todos file over the scanned database keeps one object row and leaves the
content table unchanged. -/
theorem C3A_todos_event_only_loads_and_touches_witness :
    (handle_json_file_change exGoodDb ["vault", "Todo", "todos.json"]
        2).2.1.data_objects.length = exGoodDb.data_objects.length ∧
    (handle_json_file_change exGoodDb ["vault", "Todo", "todos.json"]
        2).2.1.object_content = exGoodDb.object_content := by
  have h := C3A_todos_event_only_loads_and_touches exGoodDb
    ["vault", "Todo", "todos.json"] 2 rfl
  exact ⟨h.2.2.2.2.2, h.2.2.1⟩

/-- **C3 (counterexample).** The spec's scenario fails on the code: after the
initial scan stored the single todo of `Todo/todos.json` and the file is then
externally modified (say, a second todo appended — the handler never reads
the file, so its contents cannot influence the outcome), processing the
debounced Modify event leaves `loadObjectsByName("core.todo")` returning ONE
object, not two; the status counters do return to rest. -/
theorem C3_counterexample_second_todo_not_upserted :
    ((load_objects_by_schema Todo.fromJson
        (process_event exGoodDb SyncStatus.initial ["vault"]
          { kind := .modify, paths := [["vault", "Todo", "todos.json"]] }
          2).2.1 "core.todo").map (fun l => l.length)).toOption = some 1 ∧
    ((load_objects_by_schema Todo.fromJson
        (process_event exGoodDb SyncStatus.initial ["vault"]
          { kind := .modify, paths := [["vault", "Todo", "todos.json"]] }
          2).2.1 "core.todo").map (fun l => l.length)).toOption ≠ some 2 ∧
    (process_event exGoodDb SyncStatus.initial ["vault"]
        { kind := .modify, paths := [["vault", "Todo", "todos.json"]] }
        2).2.2 = { is_syncing := false, last_sync := some 2,
                   pending_changes := 0, errors := [] } := by
  decide

theorem handle_json_ops_fst {db : DbState} {p : FsPath} {now : Timestamp} :
    ∀ a ∈ (handle_json_file_change db p now).1, a.1 = p := by
  intro a ha
  unfold handle_json_file_change at ha
  by_cases h : (fileNameOf p == some "todos.json") = true
  · rw [if_pos h] at ha
    cases hs : sync_todos_file_from_db db with
    | error e =>
      rw [hs] at ha
      simp at ha
      rw [ha]
    | ok u =>
      rw [hs] at ha
      cases hu : update_object_from_file_path db (fsPathString p) now with
      | mk db' res =>
        cases res with
        | ok r =>
          rw [hu] at ha
          simp at ha
          rcases ha with rfl | rfl <;> rfl
        | error e =>
          rw [hu] at ha
          simp at ha
          rcases ha with rfl | rfl <;> rfl
  · rw [if_neg h] at ha
    cases hu : update_object_from_file_path db (fsPathString p) now with
    | mk db' res =>
      cases res with
      | ok r =>
        rw [hu] at ha
        simp at ha
        rw [ha]
      | error e =>
        rw [hu] at ha
        simp at ha
        rw [ha]

theorem handle_deletion_ops_fst {db : DbState} {p : FsPath}
    {now : Timestamp} :
    ∀ a ∈ (handle_file_deletion db p now).1, a.1 = p := by
  intro a ha
  unfold handle_file_deletion at ha
  cases hu : update_object_from_file_path db (fsPathString p) now with
  | mk db' res =>
    cases res with
    | ok r =>
      rw [hu] at ha
      simp at ha
      rw [ha]
    | error e =>
      rw [hu] at ha
      simp at ha
      rw [ha]

theorem process_paths_ops_not_nexus (vault : FsPath) (kind : EventKind)
    (now : Timestamp) :
    ∀ (paths : List FsPath) (db : DbState),
      ((process_paths db vault kind paths now).1).all
        (fun a => !(isUnderNexus vault a.1)) = true := by
  intro paths
  induction paths with
  | nil => intro db; rfl
  | cons p rest ih =>
    intro db
    unfold process_paths
    by_cases h1 : isUnderNexus vault p = true
    · simp only [h1, if_true]
      exact ih db
    · have h1f : isUnderNexus vault p = false := by
        simpa using h1
      simp only [h1f, Bool.false_eq_true, if_false]
      by_cases h2 : isSkippedName p = true
      · simp only [h2, if_true]
        exact ih db
      · have h2f : isSkippedName p = false := by simpa using h2
        simp only [h2f, Bool.false_eq_true, if_false]
        cases kind with
        | create | modify =>
          by_cases h3 : hasJsonExtension p = true
          · simp only [h3, if_true]
            cases hc : handle_json_file_change db p now with
            | mk ops t =>
              obtain ⟨db', err⟩ := t
              cases err with
              | none =>
                dsimp only
                rw [List.all_append, Bool.and_eq_true]
                refine ⟨?_, ih db'⟩
                apply List.all_eq_true.mpr
                intro a ha
                have hfst := handle_json_ops_fst a (by rw [hc]; exact ha)
                rw [hfst, h1f]
                rfl
              | some e =>
                dsimp only
                apply List.all_eq_true.mpr
                intro a ha
                have hfst := handle_json_ops_fst a (by rw [hc]; exact ha)
                rw [hfst, h1f]
                rfl
          · have h3f : hasJsonExtension p = false := by simpa using h3
            simp only [h3f, Bool.false_eq_true, if_false]
            exact ih db
        | remove =>
          cases hc : handle_file_deletion db p now with
          | mk ops t =>
            obtain ⟨db', err⟩ := t
            cases err with
            | none =>
              dsimp only
              rw [List.all_append, Bool.and_eq_true]
              refine ⟨?_, ih db'⟩
              apply List.all_eq_true.mpr
              intro a ha
              have hfst := handle_deletion_ops_fst a (by rw [hc]; exact ha)
              rw [hfst, h1f]
              rfl
            | some e =>
              dsimp only
              apply List.all_eq_true.mpr
              intro a ha
              have hfst := handle_deletion_ops_fst a (by rw [hc]; exact ha)
              rw [hfst, h1f]
              rfl
        | other => exact ih db

/-- **C10.** Every Object Store call the event handler performs is tagged
with the event path that triggered it, and no performed call is ever tagged
with a path under the vault's `.nexus` metadata directory: paths under
`.nexus` are skipped before any store operation, so the engine never reacts
to its own bookkeeping writes. -/
theorem C10_no_store_ops_for_nexus_paths
    (db : DbState) (st : SyncStatus) (vault : FsPath) (ev : DebouncedEvent)
    (now : Timestamp) :
    ((process_event db st vault ev now).1).all
      (fun a => !(isUnderNexus vault a.1)) = true := by
  have key := process_paths_ops_not_nexus vault ev.kind now ev.paths db
  cases h : process_paths db vault ev.kind ev.paths now with
  | mk ops t =>
    obtain ⟨db', err⟩ := t
    rw [h] at key
    cases err with
    | none =>
      have hpe : (process_event db st vault ev now).1 = ops := by
        unfold process_event handle_file_event
        rw [h]
      rw [hpe]
      exact key
    | some e =>
      have hpe : (process_event db st vault ev now).1 = ops := by
        unfold process_event handle_file_event
        rw [h]
      rw [hpe]
      exact key

end MeNexus
